import Mathlib

/-!
Verification development for the jpksj-to-sql load pipeline.

Shallow embedding of the loader components of the repository:
the shapefile-name matcher synthesis (src/loader/mapping.rs), the
recursive ZIP extractor (src/loader/zip_traversal.rs), the VRT
descriptor synthesis (src/loader/gdal.rs), and the load scheduler
(src/loader/load_queue.rs).  External subprocess invocations
(ogrinfo / ogr2ogr) and the filesystem are modelled explicitly:
subprocess outcomes become oracle parameters, the filesystem becomes
an association list from path strings to file data.
-/

namespace JpksjToSql

/-! ## String helpers

Paths and names are modelled as Lean strings; most functions work on
the underlying character lists.  Rust path-manipulation helpers
(file_name, with_extension, extension) are reproduced character-wise.
-/

/-- True when the list b is a prefix of a (List.take based, executable). -/
def startsWithL (a b : List Char) : Bool := a.take b.length == b

/-- True when the list b is a suffix of a (executable). -/
def endsWithL (a b : List Char) : Bool :=
  if b.length ≤ a.length then a.drop (a.length - b.length) == b else false

/-- Index of the last occurrence of a dot in the list, if any. -/
def lastDotIdx (cs : List Char) : Option Nat :=
  (cs.enum.filter (fun p => p.2 == '.')).getLast?.map (fun p => p.1)

/-- Rust Path::file_name: the final path segment (after the last slash). -/
def fileNameOf (p : String) : String :=
  String.mk ((p.data.reverse.takeWhile (fun c => c ≠ '/')).reverse)

/-- Rust Path::with_extension of the empty string on a file name: drop the
final dot and what follows, unless the only dot is the leading character. -/
def stemOf (cs : List Char) : List Char :=
  match lastDotIdx cs with
  | some i => if 1 ≤ i then cs.take i else cs
  | none => cs

/-- Rust Path::extension on a path: the part of the file name after its
last dot, when that dot is not the leading character of the file name. -/
def pathExtension (p : String) : Option String :=
  let name := (fileNameOf p).data
  match lastDotIdx name with
  | some i => if 1 ≤ i then some (String.mk (name.drop (i + 1))) else none
  | none => none

/-- Rust str::trim modelled on character lists (whitespace at both ends). -/
def trimChars (cs : List Char) : List Char :=
  ((cs.dropWhile Char.isWhitespace).reverse.dropWhile Char.isWhitespace).reverse

/-! ## Matcher synthesis (src/loader/mapping.rs, create_shapefile_name_regex)

The Rust function builds a regex string of the fixed shape

  anchor, escaped literal text alternating with fixed-width digit
  classes, and a case-insensitive sidecar-extension alternation
  followed by the end anchor.

The regex is embedded structurally: the alternating middle part is a
list of segments (literal text or a digit-class of a given width), and
the matching semantics of the full pattern
  anchor ++ segments ++ extension-alternation ++ end
is given executably below (regexAccepts).  Escaping of literal text in
the Rust code makes regex metacharacters in the template behave as
literal characters, which is exactly how literal segments behave here.
-/

/-- One alternating piece of the synthesized matcher: literal template
text, or a fixed-width decimal digit class produced from a token. -/
inductive Seg where
  | lit (l : List Char)
  | dig (n : Nat)
deriving DecidableEq, Repr

/-- The token alternation of mapping.rs line 73: YY, MM, PP, CCCCC, AA,
mmmm.  Returns the width of the token starting at this position, if any.
At most one token can start at a given position (their first characters
differ), so alternation order is immaterial. -/
def tokAt (cs : List Char) : Option Nat :=
  if startsWithL cs "YY".data then some 2
  else if startsWithL cs "MM".data then some 2
  else if startsWithL cs "PP".data then some 2
  else if startsWithL cs "CCCCC".data then some 5
  else if startsWithL cs "AA".data then some 2
  else if startsWithL cs "mmmm".data then some 4
  else none

/-- Leftmost token scan of the template body (the find_iter loop of
create_shapefile_name_regex), fuelled for structural recursion; the
accumulator collects pending literal characters in reverse. -/
def scanAux (fuel : Nat) (acc cs : List Char) : List Seg :=
  match cs with
  | [] => if acc.isEmpty then [] else [Seg.lit acc.reverse]
  | c :: rest =>
    match fuel with
    | 0 => [Seg.lit (acc.reverse ++ cs)]
    | Nat.succ f =>
      match tokAt cs with
      | some n =>
        (if acc.isEmpty then [] else [Seg.lit acc.reverse]) ++
          Seg.dig n :: scanAux f [] (cs.drop n)
      | none => scanAux f (c :: acc) rest

/-- Scan a whole template body into alternating segments. -/
def scanSegs (cs : List Char) : List Seg := scanAux cs.length [] cs

/-- The paren-stripping regex of mapping.rs lines 51 and 59: every
full-width-paren block with a non-empty body is removed, scanning left
to right (fuelled structural recursion; fuel = length suffices). -/
def stripParensAux (fuel : Nat) (cs : List Char) : List Char :=
  match cs with
  | [] => []
  | c :: rest =>
    match fuel with
    | 0 => cs
    | Nat.succ f =>
      if c = '（' then
        match rest.findIdx? (fun d => d == '）') with
        | some 0 => c :: stripParensAux f rest
        | some (Nat.succ k) => stripParensAux f (rest.drop (k + 2))
        | none => c :: stripParensAux f rest
      else c :: stripParensAux f rest

/-- Remove all full-width parenthesized blocks, as replace_all does. -/
def stripParens (cs : List Char) : List Char := stripParensAux cs.length cs

/-- True when the template ends in ".shp" up to letter case (mapping.rs
line 64; the Rust code lowercases the whole template and checks the
suffix, which agrees with a character-wise case fold on the suffix). -/
def endsWithShpCI (cs : List Char) : Bool :=
  decide (4 ≤ cs.length) && (cs.drop (cs.length - 4)).map Char.toLower == ".shp".data

/-- Drop a trailing ".shp" (any letter case) from the template. -/
def dropShpSuffix (cs : List Char) : List Char :=
  if endsWithShpCI cs then cs.take (cs.length - 4) else cs

/-- mapping.rs lines 58-98: strip full-width paren blocks, trim, drop a
trailing ".shp", then replace each recognized token by a fixed-width
digit class and escape the literal remainder.  The Regex::new call at
the end cannot fail on the escaped output, so the model is total. -/
def create_shapefile_name_regex (template : String) : List Seg :=
  scanSegs (dropShpSuffix (trimChars (stripParens template.data)))

/-- mapping.rs lines 48-56: display-name normalization; strip
full-width paren blocks and trim surrounding whitespace. -/
def format_name (name : String) : String :=
  String.mk (trimChars (stripParens name.data))

/-! ## Matching semantics of the synthesized pattern -/

/-- The sidecar extensions of the alternation in mapping.rs line 95. -/
def sidecarExts : List (List Char) :=
  [".shp".data, ".cpg".data, ".dbf".data, ".prj".data, ".qmd".data, ".shx".data]

/-- The case-insensitive extension alternation followed by the end
anchor: the remaining characters must be exactly one sidecar extension
up to letter case. -/
def extOk (cs : List Char) : Bool :=
  sidecarExts.any (fun e => cs.map Char.toLower == e)

/-- Consume the alternating segments from the front of the list,
returning the remainder: a literal consumes exactly itself, a
digit-class of width n consumes exactly n decimal digits. -/
def consumeSegs : List Seg → List Char → Option (List Char)
  | [], cs => some cs
  | Seg.lit l :: rest, cs =>
    if cs.take l.length = l then consumeSegs rest (cs.drop l.length) else none
  | Seg.dig n :: rest, cs =>
    if n ≤ cs.length ∧ (cs.take n).all Char.isDigit then consumeSegs rest (cs.drop n)
    else none

/-- The segments followed by the extension alternation and the end
anchor match at this position. -/
def matchesBody (segs : List Seg) (cs : List Char) : Bool :=
  match consumeSegs segs cs with
  | some r => extOk r
  | none => false

/-- Scan for a match starting right after a slash somewhere in the list
(the second branch of the leading group of the pattern). -/
def acceptsAux (segs : List Seg) : List Char → Bool
  | [] => false
  | c :: rest => (c == '/' && matchesBody segs rest) || acceptsAux segs rest

/-- Whether the synthesized pattern matches the name: the body plus
extension must span from the start of the name, or from just after a
slash, to the end of the name. -/
def regexAccepts (segs : List Seg) (cs : List Char) : Bool :=
  matchesBody segs cs || acceptsAux segs cs

/-! ## Instantiating a template with digits

A filename "obtained from the template by substituting digits of the
correct width for each token and an arbitrary sidecar extension" is
expressed by instantiating the scanned segments with a list of digit
groups, one group per digit-class segment, and appending an extension.
-/

/-- All characters of the literal segments. -/
def litChars : List Seg → List Char
  | [] => []
  | Seg.lit l :: rest => l ++ litChars rest
  | Seg.dig _ :: rest => litChars rest

/-- The exact number of characters any full segment match consumes. -/
def segsLen : List Seg → Nat
  | [] => 0
  | Seg.lit l :: rest => l.length + segsLen rest
  | Seg.dig n :: rest => n + segsLen rest

/-- Substitute the k-th digit group for the k-th digit-class segment. -/
def instantiate : List Seg → List (List Char) → List Char
  | [], _ => []
  | Seg.lit l :: rest, ds => l ++ instantiate rest ds
  | Seg.dig _ :: rest, [] => instantiate rest []
  | Seg.dig _ :: rest, d :: ds => d ++ instantiate rest ds

/-- The digit groups fit the segments: one group per digit class, of
exactly the class width, consisting of decimal digits. -/
def fits : List Seg → List (List Char) → Bool
  | [], [] => true
  | [], _ :: _ => false
  | Seg.lit _ :: rest, ds => fits rest ds
  | Seg.dig _ :: _, [] => false
  | Seg.dig n :: rest, d :: ds => d.length == n && d.all Char.isDigit && fits rest ds

/-- Like fits, but the group at token position j carries one extra digit. -/
def fitsBump : List Seg → Nat → List (List Char) → Bool
  | [], _, _ => false
  | Seg.lit _ :: rest, j, ds => fitsBump rest j ds
  | Seg.dig _ :: _, _, [] => false
  | Seg.dig n :: rest, 0, d :: ds => d.length == n + 1 && d.all Char.isDigit && fits rest ds
  | Seg.dig n :: rest, Nat.succ j, d :: ds =>
    d.length == n && d.all Char.isDigit && fitsBump rest j ds

/-- Like fits, but the group at token position j misses one digit. -/
def fitsDropOne : List Seg → Nat → List (List Char) → Bool
  | [], _, _ => false
  | Seg.lit _ :: rest, j, ds => fitsDropOne rest j ds
  | Seg.dig _ :: _, _, [] => false
  | Seg.dig n :: rest, 0, d :: ds => d.length + 1 == n && d.all Char.isDigit && fits rest ds
  | Seg.dig n :: rest, Nat.succ j, d :: ds =>
    d.length == n && d.all Char.isDigit && fitsDropOne rest j ds

/-! ## Lemmas about the matching semantics -/

theorem consumeSegs_instantiate (segs : List Seg) :
    ∀ ds tail, fits segs ds = true →
      consumeSegs segs (instantiate segs ds ++ tail) = some tail := by
  induction segs with
  | nil =>
    intro ds tail h
    cases ds with
    | nil => simp [instantiate, consumeSegs]
    | cons d ds => simp [fits] at h
  | cons s rest ih =>
    intro ds tail h
    cases s with
    | lit l =>
      have hfit : fits rest ds = true := by simpa [fits] using h
      simp only [instantiate, consumeSegs, List.append_assoc, List.take_left, List.drop_left,
        if_pos rfl]
      exact ih ds tail hfit
    | dig n =>
      cases ds with
      | nil => simp [fits] at h
      | cons d ds =>
        simp only [fits, Bool.and_eq_true, beq_iff_eq] at h
        obtain ⟨⟨hlen, hdig⟩, hfit⟩ := h
        simp only [instantiate, consumeSegs, List.append_assoc]
        rw [← hlen, List.take_left, List.drop_left, if_pos]
        · exact ih ds tail hfit
        · exact ⟨by simp, hdig⟩

theorem consumeSegs_length (segs : List Seg) :
    ∀ cs r, consumeSegs segs cs = some r → cs.length = segsLen segs + r.length := by
  induction segs with
  | nil =>
    intro cs r h
    simp [consumeSegs] at h
    simp [segsLen, h]
  | cons s rest ih =>
    intro cs r h
    cases s with
    | lit l =>
      simp only [consumeSegs] at h
      split at h
      · next htake =>
        have hle : l.length ≤ cs.length := by
          have := congrArg List.length htake
          simp [List.length_take] at this
          omega
        have := ih _ _ h
        simp [List.length_drop] at this
        simp [segsLen]
        omega
      · exact absurd h (by simp)
    | dig n =>
      simp only [consumeSegs] at h
      split at h
      · next hc =>
        have hle : n ≤ cs.length := hc.1
        have := ih _ _ h
        simp [List.length_drop] at this
        simp [segsLen]
        omega
      · exact absurd h (by simp)

theorem extOk_length {r : List Char} (h : extOk r = true) : r.length = 4 := by
  simp only [extOk, sidecarExts, List.any_eq_true, List.mem_cons, beq_iff_eq] at h
  obtain ⟨e, he, hmap⟩ := h
  have : (r.map Char.toLower).length = e.length := by rw [hmap]
  simp only [List.length_map] at this
  rw [this]
  rcases he with h | h | h | h | h | h | h <;> first
    | (subst h; rfl)
    | simp at h

theorem extOk_no_slash {r : List Char} (h : extOk r = true) : '/' ∉ r := by
  simp only [extOk, sidecarExts, List.any_eq_true, List.mem_cons, beq_iff_eq] at h
  obtain ⟨e, he, hmap⟩ := h
  intro hmem
  have : Char.toLower '/' ∈ r.map Char.toLower := List.mem_map_of_mem _ hmem
  rw [hmap] at this
  have hls : Char.toLower '/' = '/' := by decide
  rw [hls] at this
  rcases he with h | h | h | h | h | h | h <;> first
    | (subst h; simp at this)
    | simp at h

theorem acceptsAux_slash (segs : List Seg) :
    ∀ cs, acceptsAux segs cs = true → '/' ∈ cs := by
  intro cs
  induction cs with
  | nil => intro h; simp [acceptsAux] at h
  | cons c rest ih =>
    intro h
    simp only [acceptsAux, Bool.or_eq_true, Bool.and_eq_true, beq_iff_eq] at h
    rcases h with ⟨hc, _⟩ | h
    · simp [hc]
    · exact List.mem_cons_of_mem _ (ih h)

theorem matchesBody_length {segs : List Seg} {cs : List Char}
    (h : matchesBody segs cs = true) : cs.length = segsLen segs + 4 := by
  simp only [matchesBody] at h
  split at h
  · next r hr =>
    have := consumeSegs_length segs cs r hr
    rw [extOk_length h] at this
    exact this
  · exact absurd h (by simp)

theorem regexAccepts_eq_false_of_length {segs : List Seg} {cs : List Char}
    (hs : '/' ∉ cs) (hl : cs.length ≠ segsLen segs + 4) :
    regexAccepts segs cs = false := by
  simp only [regexAccepts, Bool.or_eq_false_iff]
  constructor
  · cases hb : matchesBody segs cs
    · rfl
    · exact absurd (matchesBody_length hb) hl
  · cases ha : acceptsAux segs cs
    · rfl
    · exact absurd (acceptsAux_slash segs cs ha) hs

theorem instantiate_length_fits (segs : List Seg) :
    ∀ ds, fits segs ds = true → (instantiate segs ds).length = segsLen segs := by
  induction segs with
  | nil =>
    intro ds h
    cases ds with
    | nil => simp [instantiate, segsLen]
    | cons d ds => simp [fits] at h
  | cons s rest ih =>
    intro ds h
    cases s with
    | lit l =>
      have := ih ds (by simpa [fits] using h)
      simp [instantiate, segsLen, this]
    | dig n =>
      cases ds with
      | nil => simp [fits] at h
      | cons d ds =>
        simp only [fits, Bool.and_eq_true, beq_iff_eq] at h
        have := ih ds h.2
        simp [instantiate, segsLen, this, h.1.1]

theorem instantiate_length_bump (segs : List Seg) :
    ∀ j ds, fitsBump segs j ds = true →
      (instantiate segs ds).length = segsLen segs + 1 := by
  induction segs with
  | nil => intro j ds h; simp [fitsBump] at h
  | cons s rest ih =>
    intro j ds h
    cases s with
    | lit l =>
      have := ih j ds (by simpa [fitsBump] using h)
      simp [instantiate, segsLen, this]
      omega
    | dig n =>
      cases ds with
      | nil => simp [fitsBump] at h
      | cons d ds =>
        cases j with
        | zero =>
          simp only [fitsBump, Bool.and_eq_true, beq_iff_eq] at h
          have := instantiate_length_fits rest ds h.2
          simp [instantiate, segsLen, this, h.1.1]
          omega
        | succ j =>
          simp only [fitsBump, Bool.and_eq_true, beq_iff_eq] at h
          have := ih j ds h.2
          simp [instantiate, segsLen, this, h.1.1]
          omega

theorem instantiate_length_dropOne (segs : List Seg) :
    ∀ j ds, fitsDropOne segs j ds = true →
      (instantiate segs ds).length + 1 = segsLen segs := by
  induction segs with
  | nil => intro j ds h; simp [fitsDropOne] at h
  | cons s rest ih =>
    intro j ds h
    cases s with
    | lit l =>
      have := ih j ds (by simpa [fitsDropOne] using h)
      simp [instantiate, segsLen]
      omega
    | dig n =>
      cases ds with
      | nil => simp [fitsDropOne] at h
      | cons d ds =>
        cases j with
        | zero =>
          simp only [fitsDropOne, Bool.and_eq_true, beq_iff_eq] at h
          have := instantiate_length_fits rest ds h.2
          simp [instantiate, segsLen, this]
          omega
        | succ j =>
          simp only [fitsDropOne, Bool.and_eq_true, beq_iff_eq] at h
          have := ih j ds h.2
          simp [instantiate, segsLen]
          omega

theorem litChars_append (a b : List Seg) :
    litChars (a ++ b) = litChars a ++ litChars b := by
  induction a with
  | nil => simp [litChars]
  | cons s rest ih =>
    cases s with
    | lit l => simp [litChars, ih]
    | dig n => simp [litChars, ih]

theorem tokAt_isPos {cs : List Char} {n : Nat} (h : tokAt cs = some n) : 1 ≤ n := by
  simp only [tokAt] at h
  split_ifs at h <;> first
    | (injection h with h; omega)
    | exact absurd h (by simp)

theorem emitAcc_mem {acc : List Char} {c : Char}
    (h : c ∈ litChars (if acc.isEmpty then [] else [Seg.lit acc.reverse])) : c ∈ acc := by
  split at h
  · simp [litChars] at h
  · simp [litChars] at h
    exact h

theorem scanAux_lit_mem (fuel : Nat) :
    ∀ acc cs c, c ∈ litChars (scanAux fuel acc cs) → c ∈ acc ∨ c ∈ cs := by
  induction fuel with
  | zero =>
    intro acc cs c h
    cases cs with
    | nil =>
      simp only [scanAux] at h
      exact Or.inl (emitAcc_mem h)
    | cons x rest =>
      simp only [scanAux, litChars] at h
      simp at h
      rcases h with h | h
      · exact Or.inl h
      · exact Or.inr (List.mem_cons.2 h)
  | succ f ih =>
    intro acc cs c h
    cases cs with
    | nil =>
      simp only [scanAux] at h
      exact Or.inl (emitAcc_mem h)
    | cons x rest =>
      simp only [scanAux] at h
      cases htok : tokAt (x :: rest) with
      | some n =>
        rw [htok] at h
        rw [litChars_append] at h
        rcases List.mem_append.1 h with h | h
        · exact Or.inl (emitAcc_mem h)
        · simp only [litChars] at h
          rcases ih [] ((x :: rest).drop n) c h with h | h
          · simp at h
          · exact Or.inr (List.drop_subset _ _ h)
      | none =>
        rw [htok] at h
        rcases ih (x :: acc) rest c h with h | h
        · rcases List.mem_cons.1 h with h | h
          · exact Or.inr (by simp [h])
          · exact Or.inl h
        · exact Or.inr (List.mem_cons_of_mem _ h)

theorem litChars_scanSegs_mem {cs : List Char} {c : Char}
    (h : c ∈ litChars (scanSegs cs)) : c ∈ cs := by
  rcases scanAux_lit_mem cs.length [] cs c h with h | h
  · simp at h
  · exact h

theorem fits_digits (segs : List Seg) :
    ∀ ds, fits segs ds = true → ∀ d ∈ ds, d.all Char.isDigit = true := by
  induction segs with
  | nil =>
    intro ds h d hd
    cases ds with
    | nil => simp at hd
    | cons x xs => simp [fits] at h
  | cons s rest ih =>
    intro ds h d hd
    cases s with
    | lit l => exact ih ds (by simpa [fits] using h) d hd
    | dig n =>
      cases ds with
      | nil => simp [fits] at h
      | cons x xs =>
        simp only [fits, Bool.and_eq_true, beq_iff_eq] at h
        rcases List.mem_cons.1 hd with hd | hd
        · subst hd; exact h.1.2
        · exact ih xs h.2 d hd

theorem fitsBump_digits (segs : List Seg) :
    ∀ j ds, fitsBump segs j ds = true → ∀ d ∈ ds, d.all Char.isDigit = true := by
  induction segs with
  | nil => intro j ds h; simp [fitsBump] at h
  | cons s rest ih =>
    intro j ds h d hd
    cases s with
    | lit l => exact ih j ds (by simpa [fitsBump] using h) d hd
    | dig n =>
      cases ds with
      | nil => simp [fitsBump] at h
      | cons x xs =>
        cases j with
        | zero =>
          simp only [fitsBump, Bool.and_eq_true, beq_iff_eq] at h
          rcases List.mem_cons.1 hd with hd | hd
          · subst hd; exact h.1.2
          · exact fits_digits rest xs h.2 d hd
        | succ j =>
          simp only [fitsBump, Bool.and_eq_true, beq_iff_eq] at h
          rcases List.mem_cons.1 hd with hd | hd
          · subst hd; exact h.1.2
          · exact ih j xs h.2 d hd

theorem fitsDropOne_digits (segs : List Seg) :
    ∀ j ds, fitsDropOne segs j ds = true → ∀ d ∈ ds, d.all Char.isDigit = true := by
  induction segs with
  | nil => intro j ds h; simp [fitsDropOne] at h
  | cons s rest ih =>
    intro j ds h d hd
    cases s with
    | lit l => exact ih j ds (by simpa [fitsDropOne] using h) d hd
    | dig n =>
      cases ds with
      | nil => simp [fitsDropOne] at h
      | cons x xs =>
        cases j with
        | zero =>
          simp only [fitsDropOne, Bool.and_eq_true, beq_iff_eq] at h
          rcases List.mem_cons.1 hd with hd | hd
          · subst hd; exact h.1.2
          · exact fits_digits rest xs h.2 d hd
        | succ j =>
          simp only [fitsDropOne, Bool.and_eq_true, beq_iff_eq] at h
          rcases List.mem_cons.1 hd with hd | hd
          · subst hd; exact h.1.2
          · exact ih j xs h.2 d hd

theorem slash_not_mem_instantiate (segs : List Seg) :
    ∀ ds, (∀ d ∈ ds, d.all Char.isDigit = true) → '/' ∉ litChars segs →
      '/' ∉ instantiate segs ds := by
  induction segs with
  | nil => intro ds _ _; simp [instantiate]
  | cons s rest ih =>
    intro ds hds hlit hmem
    cases s with
    | lit l =>
      simp only [litChars] at hlit
      rcases List.mem_append.1 (by simpa [instantiate] using hmem) with h | h
      · exact hlit (List.mem_append.2 (Or.inl h))
      · exact ih ds hds (fun hc => hlit (List.mem_append.2 (Or.inr hc))) h
    | dig n =>
      cases ds with
      | nil =>
        simp only [instantiate] at hmem
        exact ih [] (by simp) (by simpa [litChars] using hlit) hmem
      | cons d ds =>
        rcases List.mem_append.1 (by simpa [instantiate] using hmem) with h | h
        · have := hds d (by simp)
          have hdg : ('/' : Char).isDigit = true := by
            exact List.all_eq_true.1 this _ h
          simp at hdg
        · exact ih ds (fun x hx => hds x (List.mem_cons_of_mem _ hx))
            (by simpa [litChars] using hlit) h

/-- C1: For a naming template (no full-width paren annotations, no
surrounding whitespace, no slash, ending in ".shp" up to case), the
synthesized matcher accepts the filename obtained by substituting
exactly as many decimal digits as each token has characters and
replacing the trailing extension by any sidecar extension in any
letter case, and rejects the same filename when the digit group at
any token position has one extra or one missing digit. -/
theorem C1_matcher_accepts_correct_widths_rejects_off_by_one
    (t : String) (ds dplus dminus : List (List Char)) (j : Nat) (e : List Char)
    (hparen : stripParens t.data = t.data)
    (htrim : trimChars t.data = t.data)
    (hshp : endsWithShpCI t.data = true)
    (hslash : '/' ∉ t.data)
    (hfit : fits (create_shapefile_name_regex t) ds = true)
    (hext : extOk e = true)
    (hbump : fitsBump (create_shapefile_name_regex t) j dplus = true)
    (hdrop : fitsDropOne (create_shapefile_name_regex t) j dminus = true) :
    regexAccepts (create_shapefile_name_regex t)
        (instantiate (create_shapefile_name_regex t) ds ++ e) = true ∧
    regexAccepts (create_shapefile_name_regex t)
        (instantiate (create_shapefile_name_regex t) dplus ++ e) = false ∧
    regexAccepts (create_shapefile_name_regex t)
        (instantiate (create_shapefile_name_regex t) dminus ++ e) = false := by
  have hnos : '/' ∉ litChars (create_shapefile_name_regex t) := by
    intro hmem
    apply hslash
    have hbase : '/' ∈ dropShpSuffix (trimChars (stripParens t.data)) :=
      @litChars_scanSegs_mem (dropShpSuffix (trimChars (stripParens t.data))) '/' hmem
    rw [hparen, htrim] at hbase
    unfold dropShpSuffix at hbase
    split at hbase
    all_goals first
      | exact List.take_subset _ _ hbase
      | exact hbase
  have hel : e.length = 4 := extOk_length hext
  refine ⟨?_, ?_, ?_⟩
  · have hcons := consumeSegs_instantiate (create_shapefile_name_regex t) ds e hfit
    simp [regexAccepts, matchesBody, hcons, hext]
  · apply regexAccepts_eq_false_of_length
    · intro hmem
      rcases List.mem_append.1 hmem with h | h
      · exact slash_not_mem_instantiate _ dplus
          (fitsBump_digits _ j dplus hbump) hnos h
      · exact extOk_no_slash hext h
    · have := instantiate_length_bump (create_shapefile_name_regex t) j dplus hbump
      simp only [List.length_append, this, hel]
      omega
  · apply regexAccepts_eq_false_of_length
    · intro hmem
      rcases List.mem_append.1 hmem with h | h
      · exact slash_not_mem_instantiate _ dminus
          (fitsDropOne_digits _ j dminus hdrop) hnos h
      · exact extOk_no_slash hext h
    · have := instantiate_length_dropOne (create_shapefile_name_regex t) j dminus hdrop
      simp only [List.length_append, hel]
      omega

/-- Witness for C1 at the concrete template A01-YY.shp: digits 12 give
the accepted name A01-12.shp (here with the upper-case .SHP sidecar),
while 123 and 1 at the token are rejected. -/
theorem C1_matcher_accepts_correct_widths_rejects_off_by_one_witness :
    regexAccepts (create_shapefile_name_regex "A01-YY.shp")
        (instantiate (create_shapefile_name_regex "A01-YY.shp") [['1', '2']] ++ ".SHP".data)
        = true ∧
    regexAccepts (create_shapefile_name_regex "A01-YY.shp")
        (instantiate (create_shapefile_name_regex "A01-YY.shp") [['1', '2', '3']] ++ ".SHP".data)
        = false ∧
    regexAccepts (create_shapefile_name_regex "A01-YY.shp")
        (instantiate (create_shapefile_name_regex "A01-YY.shp") [['1']] ++ ".SHP".data)
        = false :=
  C1_matcher_accepts_correct_widths_rejects_off_by_one "A01-YY.shp"
    [['1', '2']] [['1', '2', '3']] [['1']] 0 ".SHP".data
    (by decide) (by decide) (by decide) (by decide) (by decide) (by decide)
    (by decide) (by decide)

theorem acceptsAux_iff (segs : List Seg) :
    ∀ cs, acceptsAux segs cs = true ↔
      ∃ q suf, cs = q ++ '/' :: suf ∧ matchesBody segs suf = true := by
  intro cs
  induction cs with
  | nil =>
    simp only [acceptsAux]
    constructor
    · intro h; simp at h
    · rintro ⟨q, suf, he, _⟩
      exact absurd he (by simp)
  | cons c rest ih =>
    simp only [acceptsAux, Bool.or_eq_true, Bool.and_eq_true, beq_iff_eq]
    constructor
    · rintro (⟨hc, hm⟩ | h)
      · exact ⟨[], rest, by simp [hc], hm⟩
      · obtain ⟨q, suf, he, hm⟩ := ih.1 h
        exact ⟨c :: q, suf, by simp [he], hm⟩
    · rintro ⟨q, suf, he, hm⟩
      cases q with
      | nil =>
        simp only [List.nil_append, List.cons.injEq] at he
        exact Or.inl ⟨he.1, by rw [he.2]; exact hm⟩
      | cons a q =>
        simp only [List.cons_append, List.cons.injEq] at he
        exact Or.inr (ih.2 ⟨q, suf, he.2, hm⟩)

/-- C5: A synthesized matcher matches only a full path segment: it
accepts exactly when the segments followed by a sidecar extension span
from the start of the name, or from immediately after a slash, to the
end of the name; concretely the matcher built for A01-YY.shp does not
accept foo/BAD_A01-11.shp even though A01- occurs inside it. -/
theorem C5_matcher_anchored_to_path_segment :
    (∀ segs cs, regexAccepts segs cs = true ↔
      (matchesBody segs cs = true ∨
        ∃ q suf, cs = q ++ '/' :: suf ∧ matchesBody segs suf = true)) ∧
    regexAccepts (create_shapefile_name_regex "A01-YY.shp")
      "foo/BAD_A01-11.shp".data = false := by
  constructor
  · intro segs cs
    simp only [regexAccepts, Bool.or_eq_true, acceptsAux_iff]
  · decide

/-- Modelled from the spec claim C7, for refinement comparison only: a
matcher derivation that uses the template text unmodified (no
full-width-paren stripping, no trimming) before token substitution. -/
def create_shapefile_name_regex_unstripped (template : String) : List Seg :=
  scanSegs (dropShpSuffix template.data)

/-- C7 counterexample: create_shapefile_name_regex strips the
full-width paren block of the template before token substitution, so
for the template A01（ライン）-YY.shp it differs from the
unmodified-template derivation: the produced matcher accepts
A01-12.shp and rejects A01（ライン）-12.shp. -/
theorem C7_counterexample_matcher_strips_paren_text :
    create_shapefile_name_regex "A01（ライン）-YY.shp" ≠
      create_shapefile_name_regex_unstripped "A01（ライン）-YY.shp" ∧
    regexAccepts (create_shapefile_name_regex "A01（ライン）-YY.shp")
      "A01-12.shp".data = true ∧
    regexAccepts (create_shapefile_name_regex "A01（ライン）-YY.shp")
      "A01（ライン）-12.shp".data = false := by
  exact ⟨by decide, by decide, by decide⟩

/-- C7 amended: matcher derivation applies the same full-width-paren
stripping and trimming as the display-name normalization format_name
to the template before token substitution, rather than using the
template text unmodified. -/
theorem C7_amended_matcher_normalizes_like_format_name (t : String) :
    create_shapefile_name_regex t = scanSegs (dropShpSuffix (format_name t).data) := rfl

/-! ## Compiled matchers and mapping records

The compiled matcher vector of a mapping record
(shapefile_name_regex in mapping.rs) holds patterns of three possible
shapes: one compiled from a naming template, the A33-specific widened
Polygon pattern of zip_traversal.rs lines 66-68, or the catch-all
sidecar pattern (mapping.rs lines 104-107 and zip_traversal.rs lines
87-89).  Each is embedded with its matching semantics. -/

inductive MatcherSpec where
  | compiled (segs : List Seg)
  | a33Polygon
  | catchAll
deriving DecidableEq, Repr

/-- Matching semantics of the three pattern shapes.  The a33 pattern
Po?lygon plus case-insensitive sidecar extension and end anchor; the
catch-all is the case-insensitive sidecar extension at the end. -/
def matcherAccepts (m : MatcherSpec) (cs : List Char) : Bool :=
  match m with
  | MatcherSpec.compiled segs => regexAccepts segs cs
  | MatcherSpec.a33Polygon =>
    decide (4 ≤ cs.length) && extOk (cs.drop (cs.length - 4)) &&
      (endsWithL (cs.take (cs.length - 4)) "Polygon".data ||
       endsWithL (cs.take (cs.length - 4)) "Plygon".data)
  | MatcherSpec.catchAll => decide (4 ≤ cs.length) && extOk (cs.drop (cs.length - 4))

/-- The mapping record of mapping.rs (struct ShapefileMetadata), with
the compiled regex vector replaced by its structural embedding. -/
structure ShapefileMetadata where
  cat1 : String
  cat2 : String
  name : String
  version : String
  data_year : String
  shapefile_matcher : List String
  shapefile_name_regex : List MatcherSpec
  field_mappings : List (String × String)
  original_identifier : String
  identifier : String
deriving DecidableEq, Repr

/-! ## VRT descriptor synthesis (src/loader/gdal.rs, create_vrt)

The two subprocess probes used by create_vrt, the attribute list of
the first shapefile (get_attribute_list) and the per-shapefile
encoding detection (detect_encoding), are oracle parameters; both are
fallible in the code and their errors propagate.  The ok value is the
descriptor that the code serializes and writes; the error paths return
before the descriptor is written. -/

structure Vrt where
  layer_name : String
  fields : List (String × String)
  layers : List (String × String)
deriving DecidableEq, Repr

/-- gdal.rs lines 9-72: fail on an empty shapefile list, query the
attribute list of the first shapefile, keep only field mappings whose
source attribute occurs in it, fail when none is kept, then tag each
shapefile with its detected encoding. -/
def create_vrt (out : String) (shapes : List String) (metadata : ShapefileMetadata)
    (getAttrs : String → Except String (List String))
    (detectEnc : String → Except String String) : Except String Vrt :=
  match shapes with
  | [] => Except.error "No shapefiles found"
  | s0 :: _ =>
    match getAttrs s0 with
    | Except.error e => Except.error e
    | Except.ok attributes =>
      let fields := metadata.field_mappings.filter (fun fm => attributes.contains fm.2)
      if fields.isEmpty then Except.error "No fields found in shapefile"
      else
        match shapes.mapM (fun s => (detectEnc s).map (fun enc => (s, enc))) with
        | Except.error e => Except.error e
        | Except.ok layers =>
          Except.ok ⟨String.mk (stemOf (fileNameOf out).data), fields, layers⟩

/-- C2: create_vrt keeps exactly the field mappings whose source
attribute occurs in the attribute list of the first matched shapefile,
in order, and errors without materializing a descriptor when the
shapefile list is empty or when every field entry was dropped. -/
theorem C2_create_vrt_prunes_fields_and_rejects_empty
    (out : String) (shapes : List String) (md : ShapefileMetadata)
    (getAttrs : String → Except String (List String))
    (detectEnc : String → Except String String) :
    (shapes = [] →
      create_vrt out shapes md getAttrs detectEnc = Except.error "No shapefiles found") ∧
    (∀ s0 rest attributes, shapes = s0 :: rest →
      getAttrs s0 = Except.ok attributes →
      ((md.field_mappings.filter (fun fm => attributes.contains fm.2)) = [] →
        create_vrt out shapes md getAttrs detectEnc =
          Except.error "No fields found in shapefile") ∧
      (∀ v, create_vrt out shapes md getAttrs detectEnc = Except.ok v →
        v.fields = md.field_mappings.filter (fun fm => attributes.contains fm.2))) := by
  constructor
  · intro h
    subst h
    rfl
  · intro s0 rest attributes hs hga
    subst hs
    constructor
    · intro hf
      simp only [create_vrt, hga, hf]
      rfl
    · intro v hv
      simp only [create_vrt, hga] at hv
      split at hv
      · exact absurd hv (by simp)
      · split at hv
        · exact absurd hv (by simp)
        · next layers hm =>
          cases hv
          rfl

/-- Witness for C2: with one shapefile whose attribute table contains
X but not Y, a two-field mapping is pruned to its X entry. -/
theorem C2_create_vrt_prunes_fields_and_rejects_empty_witness :
    ∀ v, create_vrt "out/a01.vrt" ["a.shp"]
        { cat1 := "", cat2 := "", name := "", version := "", data_year := "",
          shapefile_matcher := [], shapefile_name_regex := [],
          field_mappings := [("dest1", "X"), ("dest2", "Y")],
          original_identifier := "A01", identifier := "A01" }
        (fun _ => Except.ok ["X", "Z"]) (fun _ => Except.ok "CP932") = Except.ok v →
      v.fields = [("dest1", "X")] := by
  intro v hv
  have h := (C2_create_vrt_prunes_fields_and_rejects_empty "out/a01.vrt" ["a.shp"]
    { cat1 := "", cat2 := "", name := "", version := "", data_year := "",
      shapefile_matcher := [], shapefile_name_regex := [],
      field_mappings := [("dest1", "X"), ("dest2", "Y")],
      original_identifier := "A01", identifier := "A01" }
    (fun _ => Except.ok ["X", "Z"]) (fun _ => Except.ok "CP932")).2
    "a.shp" [] ["X", "Z"] rfl rfl
  have := h.2 v hv
  simpa using this

/-! ## Recursive ZIP extraction (src/loader/zip_traversal.rs, extract_zip)

An archive entry name maps to file data: raw bytes, or a nested
archive (the on-disk serialization of a nested ZIP is represented by
the archive value itself; byte-identity of files on disk is equality
of ZData values).  The scratch filesystem is an association list from
path strings to file data; writing truncates and replaces, as
File::create does.  Extraction is fuelled on archive nesting depth
(ZipArchive::new on a non-archive is the open failure). -/

inductive ZData where
  | bytes (bs : List Nat)
  | archive (entries : List (String × ZData))

/-- The scratch filesystem: paths to file contents. -/
abbrev FS := List (String × ZData)

/-- Write (create or truncate-and-replace) a file. -/
def fsWrite : FS → String → ZData → FS
  | [], p, c => [(p, c)]
  | (q, d) :: rest, p, c =>
    if q = p then (q, c) :: rest else (q, d) :: fsWrite rest p c

/-- Read a file. -/
def fsLookup : FS → String → Option ZData
  | [], _ => none
  | (q, d) :: rest, p => if q = p then some d else fsLookup rest p

/-- Apply a sequence of writes in order. -/
def applyWrites (fs : FS) (ws : List (String × ZData)) : FS :=
  ws.foldl (fun f w => fsWrite f w.1 w.2) fs

/-- zip_traversal.rs line 25: Windows backslashes become forward slashes. -/
def normalizeSlashes (s : String) : String :=
  String.mk (s.data.map (fun c => if c = '\\' then '/' else c))

/-- zip_traversal.rs line 30: nested-container detection by entry name. -/
def isZipName (s : String) : Bool := endsWithL s.data ".zip".data

/-- zip_traversal.rs lines 38-41: known-bad duplicate path prefix. -/
def denyPrefix : List Char := "N08-21_GML/utf8/".data

/-- The per-entry body of the extraction loop (zip_traversal.rs lines
22-46), with the recursive descent into nested archives abstracted as
the function argument so that the loop can be reasoned about by list
induction.  State: accumulated output paths (or the first error,
which aborts the remaining iterations) plus the filesystem. -/
def extractZipStep (recur : String → FS → Except String (List String) × FS)
    (outdir2 : String) (matchers : List MatcherSpec)
    (st : Except String (List String) × FS) (en : String × ZData) :
    Except String (List String) × FS :=
  match st with
  | (Except.error e, fsc) => (Except.error e, fsc)
  | (Except.ok acc, fsc) =>
    let fname := normalizeSlashes en.1
    let dest := outdir2 ++ "/" ++ fname
    if isZipName fname then
      match recur dest (fsWrite fsc dest en.2) with
      | (Except.ok sub, fsc3) => (Except.ok (acc ++ sub), fsc3)
      | (Except.error e, fsc3) => (Except.error e, fsc3)
    else if matchers.any (fun m => matcherAccepts m fname.data) then
      if startsWithL fname.data denyPrefix then (Except.ok acc, fsc)
      else (Except.ok (acc ++ [dest]), fsWrite fsc dest en.2)
    else (Except.ok acc, fsc)

/-- zip_traversal.rs lines 11-48: open the archive at the given path,
walk its entries in order, copy nested archives out and recurse into
them, copy entries accepted by some matcher (outside the deny list)
and record their destination paths. -/
def extract_zip (fuel : Nat) (outdir zipPath : String) (matchers : List MatcherSpec)
    (fs : FS) : Except String (List String) × FS :=
  match fuel with
  | 0 => (Except.error "nested archives too deep", fs)
  | Nat.succ f =>
    match fsLookup fs zipPath with
    | some (ZData.archive entries) =>
      let outdir2 := outdir ++ "/" ++ String.mk (stemOf (fileNameOf zipPath).data)
      entries.foldl
        (extractZipStep (fun dest fsc => extract_zip f outdir2 dest matchers fsc)
          outdir2 matchers)
        (Except.ok [], fs)
    | some (ZData.bytes _) => (Except.error "failed to open zip archive", fs)
    | none => (Except.error "failed to open zip archive", fs)

/-- Pure companion of extractZipStep: instead of threading the
filesystem it accumulates the list of writes that would be issued. -/
def extractWStep
    (recur : String → Option ZData → Except String (List String) × List (String × ZData))
    (outdir2 : String) (matchers : List MatcherSpec)
    (st : Except String (List String) × List (String × ZData)) (en : String × ZData) :
    Except String (List String) × List (String × ZData) :=
  match st with
  | (Except.error e, ws) => (Except.error e, ws)
  | (Except.ok acc, ws) =>
    let fname := normalizeSlashes en.1
    let dest := outdir2 ++ "/" ++ fname
    if isZipName fname then
      match recur dest (some en.2) with
      | (Except.ok sub, ws2) => (Except.ok (acc ++ sub), ws ++ (dest, en.2) :: ws2)
      | (Except.error e, ws2) => (Except.error e, ws ++ (dest, en.2) :: ws2)
    else if matchers.any (fun m => matcherAccepts m fname.data) then
      if startsWithL fname.data denyPrefix then (Except.ok acc, ws)
      else (Except.ok (acc ++ [dest]), ws ++ [(dest, en.2)])
    else (Except.ok acc, ws)

/-- Pure companion of extract_zip over the content found at the
archive path: result plus ordered write list. -/
def extractW (fuel : Nat) (outdir zipPath : String) (matchers : List MatcherSpec)
    (content : Option ZData) : Except String (List String) × List (String × ZData) :=
  match fuel with
  | 0 => (Except.error "nested archives too deep", [])
  | Nat.succ f =>
    match content with
    | some (ZData.archive entries) =>
      let outdir2 := outdir ++ "/" ++ String.mk (stemOf (fileNameOf zipPath).data)
      entries.foldl
        (extractWStep (fun dest c => extractW f outdir2 dest matchers c) outdir2 matchers)
        (Except.ok [], [])
    | some (ZData.bytes _) => (Except.error "failed to open zip archive", [])
    | none => (Except.error "failed to open zip archive", [])

theorem applyWrites_cons (fs : FS) (w : String × ZData) (ws : List (String × ZData)) :
    applyWrites fs (w :: ws) = applyWrites (fsWrite fs w.1 w.2) ws := rfl

theorem applyWrites_append (fs : FS) (ws1 ws2 : List (String × ZData)) :
    applyWrites fs (ws1 ++ ws2) = applyWrites (applyWrites fs ws1) ws2 := by
  simp [applyWrites, List.foldl_append]

theorem fsLookup_fsWrite_self (fs : FS) (p : String) (c : ZData) :
    fsLookup (fsWrite fs p c) p = some c := by
  induction fs with
  | nil => simp [fsWrite, fsLookup]
  | cons qd rest ih =>
    obtain ⟨q, d⟩ := qd
    by_cases h : q = p
    · simp [fsWrite, fsLookup, h]
    · simp [fsWrite, fsLookup, h, ih]

theorem extractStep_char
    (recZ : String → FS → Except String (List String) × FS)
    (recW : String → Option ZData → Except String (List String) × List (String × ZData))
    (outdir2 : String) (matchers : List MatcherSpec) (fs : FS)
    (hrec : ∀ dest fsX, recZ dest fsX =
      ((recW dest (fsLookup fsX dest)).1,
       applyWrites fsX (recW dest (fsLookup fsX dest)).2))
    (stW : Except String (List String) × List (String × ZData)) (en : String × ZData) :
    extractZipStep recZ outdir2 matchers (stW.1, applyWrites fs stW.2) en =
      ((extractWStep recW outdir2 matchers stW en).1,
       applyWrites fs (extractWStep recW outdir2 matchers stW en).2) := by
  obtain ⟨res, ws⟩ := stW
  cases res with
  | error e => rfl
  | ok acc =>
    have hw : fsWrite (applyWrites fs ws)
        (outdir2 ++ "/" ++ normalizeSlashes en.1) en.2 =
        applyWrites fs (ws ++ [(outdir2 ++ "/" ++ normalizeSlashes en.1, en.2)]) := by
      rw [applyWrites_append]
      rfl
    simp only [extractZipStep, extractWStep]
    cases hz : isZipName (normalizeSlashes en.1) with
    | true =>
      rw [if_pos (show (true : Bool) = true from rfl),
        if_pos (show (true : Bool) = true from rfl), hrec, fsLookup_fsWrite_self, hw]
      rcases hrw : recW (outdir2 ++ "/" ++ normalizeSlashes en.1) (some en.2) with ⟨sub, ws2⟩
      cases sub <;> simp [← applyWrites_append, List.append_assoc]
    | false =>
      rw [if_neg (show ¬ ((false : Bool) = true) by decide),
        if_neg (show ¬ ((false : Bool) = true) by decide)]
      cases hm : matchers.any (fun m => matcherAccepts m (normalizeSlashes en.1).data) with
      | true =>
        rw [if_pos (show (true : Bool) = true from rfl),
          if_pos (show (true : Bool) = true from rfl)]
        cases hd : startsWithL (normalizeSlashes en.1).data denyPrefix with
        | true =>
          rw [if_pos (show (true : Bool) = true from rfl),
            if_pos (show (true : Bool) = true from rfl)]
        | false =>
          rw [if_neg (show ¬ ((false : Bool) = true) by decide),
            if_neg (show ¬ ((false : Bool) = true) by decide), hw]
      | false =>
        rw [if_neg (show ¬ ((false : Bool) = true) by decide),
          if_neg (show ¬ ((false : Bool) = true) by decide)]

theorem extractFold_char
    (recZ : String → FS → Except String (List String) × FS)
    (recW : String → Option ZData → Except String (List String) × List (String × ZData))
    (outdir2 : String) (matchers : List MatcherSpec) (fs : FS)
    (hrec : ∀ dest fsX, recZ dest fsX =
      ((recW dest (fsLookup fsX dest)).1,
       applyWrites fsX (recW dest (fsLookup fsX dest)).2)) :
    ∀ (entries : List (String × ZData))
      (stW : Except String (List String) × List (String × ZData)),
      entries.foldl (extractZipStep recZ outdir2 matchers) (stW.1, applyWrites fs stW.2) =
        ((entries.foldl (extractWStep recW outdir2 matchers) stW).1,
         applyWrites fs (entries.foldl (extractWStep recW outdir2 matchers) stW).2) := by
  intro entries
  induction entries with
  | nil => intro stW; rfl
  | cons en rest ih =>
    intro stW
    rw [List.foldl_cons, List.foldl_cons]
    rw [extractStep_char recZ recW outdir2 matchers fs hrec stW en]
    exact ih (extractWStep recW outdir2 matchers stW en)

/-- extract_zip depends on the preexisting filesystem only through the
content at the archive path, and its effect is a write sequence that
is itself independent of the filesystem (every nested archive read is
a read of data the same run has just written). -/
theorem extract_zip_characterization (fuel : Nat) :
    ∀ (outdir zipPath : String) (matchers : List MatcherSpec) (fs : FS),
      extract_zip fuel outdir zipPath matchers fs =
        ((extractW fuel outdir zipPath matchers (fsLookup fs zipPath)).1,
         applyWrites fs (extractW fuel outdir zipPath matchers (fsLookup fs zipPath)).2) := by
  induction fuel with
  | zero => intro od zp m fs; rfl
  | succ f ih =>
    intro od zp m fs
    simp only [extract_zip, extractW]
    cases hlk : fsLookup fs zp with
    | none => rfl
    | some zd =>
      cases zd with
      | bytes bs => rfl
      | archive entries =>
        have hfold := extractFold_char
          (fun dest fsc =>
            extract_zip f (od ++ "/" ++ String.mk (stemOf (fileNameOf zp).data)) dest m fsc)
          (fun dest c =>
            extractW f (od ++ "/" ++ String.mk (stemOf (fileNameOf zp).data)) dest m c)
          (od ++ "/" ++ String.mk (stemOf (fileNameOf zp).data)) m fs
          (fun dest fsX =>
            ih (od ++ "/" ++ String.mk (stemOf (fileNameOf zp).data)) dest m fsX)
          entries (Except.ok [], [])
        simpa using hfold

/-- Last write to a path in a write sequence, else the fallback. -/
def lastWFrom (acc : Option ZData) (ws : List (String × ZData)) (p : String) : Option ZData :=
  ws.foldl (fun a w => if w.1 = p then some w.2 else a) acc

theorem fsLookup_fsWrite_other (fs : FS) (q p : String) (c : ZData) (h : q ≠ p) :
    fsLookup (fsWrite fs q c) p = fsLookup fs p := by
  induction fs with
  | nil => simp [fsWrite, fsLookup, h]
  | cons xd rest ih =>
    obtain ⟨x, d⟩ := xd
    by_cases hx : x = q
    · subst hx
      simp [fsWrite, fsLookup, h]
    · simp [fsWrite, fsLookup, hx, ih]

theorem lastWFrom_eq (p : String) :
    ∀ ws acc, lastWFrom acc ws p =
      match lastWFrom none ws p with
      | some c => some c
      | none => acc := by
  intro ws
  induction ws with
  | nil => intro acc; rfl
  | cons w ws ih =>
    intro acc
    have hl : lastWFrom acc (w :: ws) p =
        lastWFrom (if w.1 = p then some w.2 else acc) ws p := rfl
    have hr : lastWFrom none (w :: ws) p =
        lastWFrom (if w.1 = p then some w.2 else none) ws p := rfl
    rw [hl, hr, ih (if w.1 = p then some w.2 else acc),
      ih (if w.1 = p then some w.2 else none)]
    cases h : lastWFrom none ws p with
    | some c => rfl
    | none => by_cases hp : w.1 = p <;> simp [hp]

theorem fsLookup_applyWrites (p : String) :
    ∀ ws fs, fsLookup (applyWrites fs ws) p =
      match lastWFrom none ws p with
      | some c => some c
      | none => fsLookup fs p := by
  intro ws
  induction ws with
  | nil => intro fs; rfl
  | cons w ws ih =>
    intro fs
    rw [applyWrites_cons, ih]
    have hr : lastWFrom none (w :: ws) p =
        lastWFrom (if w.1 = p then some w.2 else none) ws p := rfl
    rw [hr, lastWFrom_eq p ws (if w.1 = p then some w.2 else none)]
    cases h : lastWFrom none ws p with
    | some c => rfl
    | none =>
      by_cases hp : w.1 = p
      · subst hp
        simp [fsLookup_fsWrite_self]
      · simp [hp, fsLookup_fsWrite_other fs w.1 p w.2 hp]

theorem fsLookup_applyWrites_idem (ws : List (String × ZData)) (fs : FS) (p : String) :
    fsLookup (applyWrites (applyWrites fs ws) ws) p = fsLookup (applyWrites fs ws) p := by
  conv_lhs => rw [fsLookup_applyWrites]
  cases h : lastWFrom none ws p with
  | some c => rw [fsLookup_applyWrites p ws fs, h]
  | none => rfl

/-- C8: extract_zip is idempotent: a second extraction run over the
same archive, matcher set and scratch root (the first run having left
the archive itself untouched) returns the same list of output file
paths, and every file on disk has the same content after the second
run as after the first. -/
theorem C8_extract_zip_idempotent
    (fuel : Nat) (outdir zipPath : String) (matchers : List MatcherSpec)
    (fs fs1 : FS) (r : Except String (List String)) (p : String)
    (hrun : extract_zip fuel outdir zipPath matchers fs = (r, fs1))
    (hstable : fsLookup fs1 zipPath = fsLookup fs zipPath) :
    (extract_zip fuel outdir zipPath matchers fs1).1 = r ∧
    fsLookup (extract_zip fuel outdir zipPath matchers fs1).2 p = fsLookup fs1 p := by
  have h1 := extract_zip_characterization fuel outdir zipPath matchers fs
  have h2 := extract_zip_characterization fuel outdir zipPath matchers fs1
  rw [hstable] at h2
  rw [hrun] at h1
  have hr : r = (extractW fuel outdir zipPath matchers (fsLookup fs zipPath)).1 :=
    congrArg Prod.fst h1
  have hfs1 : fs1 =
      applyWrites fs (extractW fuel outdir zipPath matchers (fsLookup fs zipPath)).2 :=
    congrArg Prod.snd h1
  constructor
  · rw [h2, ← hr]
  · rw [h2]
    conv_lhs => rw [hfs1]
    conv_rhs => rw [hfs1]
    exact fsLookup_applyWrites_idem _ _ p

/-- A one-entry archive at path in.zip, before extraction. -/
def exampleZipFS : FS := [("in.zip", ZData.archive [("a.shp", ZData.bytes [1])])]

/-- The same scratch filesystem after one extraction run. -/
def exampleZipFSAfter : FS :=
  [("in.zip", ZData.archive [("a.shp", ZData.bytes [1])]),
   ("out/in/a.shp", ZData.bytes [1])]

/-- Witness for C8: re-running extraction over the already-extracted
scratch state returns the same single path and leaves the extracted
file unchanged. -/
theorem C8_extract_zip_idempotent_witness :
    (extract_zip 2 "out" "in.zip" [MatcherSpec.catchAll] exampleZipFSAfter).1 =
      Except.ok ["out/in/a.shp"] ∧
    fsLookup (extract_zip 2 "out" "in.zip" [MatcherSpec.catchAll] exampleZipFSAfter).2
      "out/in/a.shp" = fsLookup exampleZipFSAfter "out/in/a.shp" :=
  C8_extract_zip_idempotent 2 "out" "in.zip" [MatcherSpec.catchAll]
    exampleZipFS exampleZipFSAfter (Except.ok ["out/in/a.shp"]) "out/in/a.shp" rfl rfl

/-! ## Matcher selection and retry (zip_traversal.rs,
matching_shapefiles_in_zip)

The returned value records, besides the extraction outcome, the list
of matcher sets in the order passes were run with them, so that the
escalation behaviour is observable. -/

/-- The catch-all any-sidecar matcher set (zip_traversal.rs 87-89). -/
def catchAllMatchers : List MatcherSpec := [MatcherSpec.catchAll]

/-- The A33-specific widened Polygon matcher set (lines 66-68). -/
def a33ExpandedMatchers : List MatcherSpec := [MatcherSpec.a33Polygon]

/-- The matcher set of the first extraction pass (lines 63-81): the
widened Polygon set for A33, the compiled precise set otherwise. -/
def firstPassMatchers (mapping : ShapefileMetadata) : List MatcherSpec :=
  if mapping.identifier = "A33" then a33ExpandedMatchers
  else mapping.shapefile_name_regex

/-- zip_traversal.rs lines 50-117: one extraction pass under the
first-pass matcher set, a single retry with the catch-all set when it
produced zero files, then restriction of the output to the entries
whose path extension is exactly shp. -/
def matching_shapefiles_in_zip (fuel : Nat) (tmp zipPath : String)
    (mapping : ShapefileMetadata) (fs : FS) :
    (Except String (List String) × FS) × List (List MatcherSpec) :=
  let shpTmp := tmp ++ "/shp"
  let m1 := firstPassMatchers mapping
  match extract_zip fuel shpTmp zipPath m1 fs with
  | (Except.error e, fs1) => ((Except.error e, fs1), [m1])
  | (Except.ok paths, fs1) =>
    if paths.isEmpty then
      match extract_zip fuel shpTmp zipPath catchAllMatchers fs1 with
      | (Except.error e, fs2) => ((Except.error e, fs2), [m1, catchAllMatchers])
      | (Except.ok paths2, fs2) =>
        ((Except.ok (paths2.filter (fun p => pathExtension p == some "shp")), fs2),
         [m1, catchAllMatchers])
    else
      ((Except.ok (paths.filter (fun p => pathExtension p == some "shp")), fs1), [m1])

theorem matchPasses_snd (m1 : List MatcherSpec)
    (x : Except String (List String) × FS) :
    (match x with
      | (Except.error e, fs2) => ((Except.error e, fs2), [m1, catchAllMatchers])
      | (Except.ok paths2, fs2) =>
        ((Except.ok (paths2.filter (fun p => pathExtension p == some "shp")), fs2),
         [m1, catchAllMatchers])).2 = [m1, catchAllMatchers] := by
  rcases x with ⟨r, f2⟩
  cases r <;> rfl

/-- The claim under test for C3: the first extraction pass always runs
with the mapping's own precise matcher set. -/
def claimC3FirstPassPrecise (fuel : Nat) (tmp zipPath : String)
    (mapping : ShapefileMetadata) (fs : FS) : Prop :=
  (matching_shapefiles_in_zip fuel tmp zipPath mapping fs).2.head? =
    some mapping.shapefile_name_regex

/-- An A33 mapping with its compiled precise matcher. -/
def a33Mapping : ShapefileMetadata :=
  { cat1 := "", cat2 := "", name := "", version := "", data_year := "",
    shapefile_matcher := ["A33-YY_PP.shp"],
    shapefile_name_regex :=
      [MatcherSpec.compiled [Seg.lit "A33-".data, Seg.dig 2, Seg.lit "_".data, Seg.dig 2]],
    field_mappings := [("a", "b")],
    original_identifier := "A33", identifier := "A33" }

/-- C3 counterexample: for an A33 mapping the first extraction pass
does not run with the mapping's precise matcher regexes; the
dataset-specific widened Polygon pattern replaces them up front
instead of serving as a retry stage after a zero-yield precise pass. -/
theorem C3_counterexample_a33_skips_precise_pass :
    ¬ claimC3FirstPassPrecise 2 "tmp" "z.zip" a33Mapping
        [("z.zip", ZData.archive [])] := by
  unfold claimC3FirstPassPrecise
  decide

/-- C3 amended: the first pass runs with the precise matchers except
for A33, whose first pass runs with the widened Polygon pattern
instead; in either case exactly one retry with the catch-all sidecar
pattern happens, exactly when the first pass succeeded with zero
extracted files. -/
theorem C3_amended_first_pass_then_single_catchall_retry
    (fuel : Nat) (tmp zipPath : String) (mapping : ShapefileMetadata) (fs : FS) :
    (mapping.identifier = "A33" → firstPassMatchers mapping = a33ExpandedMatchers) ∧
    (mapping.identifier ≠ "A33" →
      firstPassMatchers mapping = mapping.shapefile_name_regex) ∧
    (matching_shapefiles_in_zip fuel tmp zipPath mapping fs).2.head? =
      some (firstPassMatchers mapping) ∧
    (∀ paths fs1,
      extract_zip fuel (tmp ++ "/shp") zipPath (firstPassMatchers mapping) fs =
        (Except.ok paths, fs1) → paths ≠ [] →
      (matching_shapefiles_in_zip fuel tmp zipPath mapping fs).2 =
        [firstPassMatchers mapping]) ∧
    (∀ fs1,
      extract_zip fuel (tmp ++ "/shp") zipPath (firstPassMatchers mapping) fs =
        (Except.ok [], fs1) →
      (matching_shapefiles_in_zip fuel tmp zipPath mapping fs).2 =
        [firstPassMatchers mapping, catchAllMatchers]) := by
  refine ⟨?_, ?_, ?_, ?_, ?_⟩
  · intro h
    simp [firstPassMatchers, h]
  · intro h
    simp [firstPassMatchers, h]
  · simp only [matching_shapefiles_in_zip]
    rcases hr : extract_zip fuel (tmp ++ "/shp") zipPath (firstPassMatchers mapping) fs
      with ⟨res, fs1⟩
    cases res with
    | error e => rfl
    | ok paths =>
      cases paths with
      | nil =>
        exact congrArg List.head? (matchPasses_snd (firstPassMatchers mapping)
          (extract_zip fuel (tmp ++ "/shp") zipPath catchAllMatchers fs1))
      | cons p ps => rfl
  · intro paths fs1 hr hne
    simp only [matching_shapefiles_in_zip]
    rw [hr]
    cases paths with
    | nil => exact absurd rfl hne
    | cons p ps => rfl
  · intro fs1 hr
    simp only [matching_shapefiles_in_zip]
    rw [hr]
    exact matchPasses_snd (firstPassMatchers mapping)
      (extract_zip fuel (tmp ++ "/shp") zipPath catchAllMatchers fs1)

/-- A non-A33 mapping with a compiled precise matcher. -/
def exampleMapping : ShapefileMetadata :=
  { cat1 := "", cat2 := "", name := "", version := "", data_year := "",
    shapefile_matcher := ["X01-YY.shp"],
    shapefile_name_regex := [MatcherSpec.compiled [Seg.lit "X01-".data, Seg.dig 2]],
    field_mappings := [("a", "b")],
    original_identifier := "X01", identifier := "X01" }

/-- An archive with no entries. -/
def exampleEmptyArchiveFS : FS := [("z.zip", ZData.archive [])]

/-- Witness for the C3 amended theorem: a non-A33 mapping keeps its
precise matchers for the first pass, and an empty first pass is
followed by exactly the catch-all retry. -/
theorem C3_amended_first_pass_then_single_catchall_retry_witness :
    firstPassMatchers exampleMapping = exampleMapping.shapefile_name_regex ∧
    (matching_shapefiles_in_zip 2 "tmp" "z.zip" exampleMapping exampleEmptyArchiveFS).2 =
      [firstPassMatchers exampleMapping, catchAllMatchers] :=
  ⟨(C3_amended_first_pass_then_single_catchall_retry 2 "tmp" "z.zip" exampleMapping
      exampleEmptyArchiveFS).2.1 (by decide),
   (C3_amended_first_pass_then_single_catchall_retry 2 "tmp" "z.zip" exampleMapping
      exampleEmptyArchiveFS).2.2.2.2 exampleEmptyArchiveFS rfl⟩

/-! ## The per-mapping load step (load_queue.rs, load, lines 40-187)

The body of the per-mapping loop is embedded with the outcomes of the
external effects (zip matching, the ogrinfo existence probe, the
output-file existence test, VRT synthesis, the two ogr2ogr load
flavours, and the metadata step) supplied as oracles, and the order of
observable actions recorded as an event trace.  The metadata tail of
the loop (lines 136-186, which for file targets calls layer_schema, a
function whose definition is not present under src/) is abstracted to
a single metadata event with its own oracle outcome. -/

/-- The output target; file targets carry the derived output path
(output.output_path, which for the File variant is always present). -/
inductive OutTarget where
  | postgres
  | file (outputPath : Option String)
deriving DecidableEq, Repr

/-- Observable actions of one mapping load, in execution order. -/
inductive Event where
  | extractPass (zip : String)
  | existCheck
  | vrtCreate
  | pgLoad
  | fileLoad
  | skipLog
  | metadataWrite
deriving DecidableEq, Repr

/-- Outcomes of the external effects consumed by one mapping load. -/
structure LoadOracles where
  matchRes : String → Except String (List String)
  probe : Option Bool
  fileExists : Bool
  vrtRes : Except String Unit
  pgRes : Except String Unit
  fileRes : Except String Unit
  metaRes : Except String Unit

/-- gdal.rs lines 104-116: the existence probe.  The probe value is
none when the ogrinfo process cannot be started (the error path of
Command::output), some flag when it ran and exited with the given
success status; the exit status is returned as the boolean with no
error, whatever the cause of an unsuccessful exit. -/
def has_layer (probe : Option Bool) : Except String Bool :=
  match probe with
  | none => Except.error "failed to run ogrinfo"
  | some flag => Except.ok flag

/-- One iteration of the extraction loop of load (lines 49-60). -/
def extractStepEv (o : LoadOracles) (st : Except String (List String) × List Event)
    (z : String) : Except String (List String) × List Event :=
  match st with
  | (Except.error e, evs) => (Except.error e, evs)
  | (Except.ok acc, evs) =>
    match o.matchRes z with
    | Except.error e => (Except.error e, evs ++ [Event.extractPass z])
    | Except.ok ps => (Except.ok (acc ++ ps), evs ++ [Event.extractPass z])

/-- The extraction loop over the dataset's archives (lines 48-60). -/
def runExtracts (o : LoadOracles) (zips : List String) :
    Except String (List String) × List Event :=
  zips.foldl (extractStepEv o) (Except.ok [], [])

/-- load_queue.rs lines 40-187, one mapping: extraction over every
archive, then (only under skip-if-exists) the destination existence
check, then VRT synthesis when a load is needed or a file target has
shapefiles, then either the skip log line or the conversion-tool
invocation, then the metadata step. -/
def loadMapping (mapping : ShapefileMetadata) (zips : List String) (output : OutTarget)
    (skipIfExists : Bool) (o : LoadOracles) : Except String Unit × List Event :=
  match runExtracts o zips with
  | (Except.error e, evs) => (Except.error e, evs)
  | (Except.ok shapefiles, evs) =>
    let checkStep : Except String Bool × List Event :=
      if skipIfExists then
        match output with
        | OutTarget.postgres => (has_layer o.probe, [Event.existCheck])
        | OutTarget.file op =>
          (Except.ok (match op with | some _ => o.fileExists | none => false),
           [Event.existCheck])
      else (Except.ok false, [])
    match checkStep with
    | (Except.error e, evs2) => (Except.error e, evs ++ evs2)
    | (Except.ok alreadyExists, evs2) =>
      let evsB := evs ++ evs2
      let needsLoad := !(skipIfExists && alreadyExists)
      let isFile := match output with | OutTarget.file _ => true | _ => false
      let needsVrt := needsLoad || (isFile && !shapefiles.isEmpty)
      let vrtStep : Except String Unit × List Event :=
        if needsVrt then (o.vrtRes, [Event.vrtCreate]) else (Except.ok (), [])
      match vrtStep with
      | (Except.error e, evs3) => (Except.error e, evsB ++ evs3)
      | (Except.ok _, evs3) =>
        let evsC := evsB ++ evs3
        if skipIfExists && alreadyExists then
          match o.metaRes with
          | Except.error e =>
            (Except.error e, evsC ++ [Event.skipLog, Event.metadataWrite])
          | Except.ok _ =>
            (Except.ok (), evsC ++ [Event.skipLog, Event.metadataWrite])
        else
          match output with
          | OutTarget.postgres =>
            match o.pgRes with
            | Except.error e => (Except.error e, evsC ++ [Event.pgLoad])
            | Except.ok _ =>
              match o.metaRes with
              | Except.error e =>
                (Except.error e, evsC ++ [Event.pgLoad, Event.metadataWrite])
              | Except.ok _ =>
                (Except.ok (), evsC ++ [Event.pgLoad, Event.metadataWrite])
          | OutTarget.file op =>
            match op with
            | none => (Except.error "missing output path", evsC)
            | some _ =>
              match o.fileRes with
              | Except.error e => (Except.error e, evsC ++ [Event.fileLoad])
              | Except.ok _ =>
                match o.metaRes with
                | Except.error e =>
                  (Except.error e, evsC ++ [Event.fileLoad, Event.metadataWrite])
                | Except.ok _ =>
                  (Except.ok (), evsC ++ [Event.fileLoad, Event.metadataWrite])

theorem runExtracts_foldl_events (o : LoadOracles) :
    ∀ (zips : List String) (st : Except String (List String) × List Event),
      (∀ e ∈ st.2, ∃ z, e = Event.extractPass z) →
      ∀ e ∈ (zips.foldl (extractStepEv o) st).2, ∃ z, e = Event.extractPass z := by
  intro zips
  induction zips with
  | nil => intro st h; exact h
  | cons z rest ih =>
    intro st h
    rw [List.foldl_cons]
    apply ih
    rcases st with ⟨res, evs⟩
    cases res with
    | error e => exact h
    | ok acc =>
      simp only [extractStepEv]
      cases hm : o.matchRes z with
      | error e =>
        intro ev hev
        rcases List.mem_append.1 hev with hev | hev
        · exact h ev hev
        · exact ⟨z, by simpa using hev⟩
      | ok ps =>
        intro ev hev
        rcases List.mem_append.1 hev with hev | hev
        · exact h ev hev
        · exact ⟨z, by simpa using hev⟩

theorem runExtracts_events (o : LoadOracles) (zips : List String) :
    ∀ e ∈ (runExtracts o zips).2, ∃ z, e = Event.extractPass z :=
  runExtracts_foldl_events o zips (Except.ok [], []) (by intro e h; simp at h)

/-- Event predicate: the event is an extraction pass. -/
def isExtractPass : Event → Bool
  | Event.extractPass _ => true
  | _ => false

theorem takeWhile_append_of_all {p : Event → Bool} :
    ∀ (a b : List Event), (∀ e ∈ a, p e = true) →
      List.takeWhile p (a ++ b) = a ++ List.takeWhile p b := by
  intro a
  induction a with
  | nil => intro b _; rfl
  | cons x rest ih =>
    intro b h
    have hx : p x = true := h x (by simp)
    simp only [List.cons_append, List.takeWhile_cons, hx, if_true]
    rw [ih b (fun e he => h e (List.mem_cons_of_mem _ he))]

theorem takeWhile_all_extract (evs : List Event)
    (hevs : ∀ e ∈ evs, ∃ z, e = Event.extractPass z) (p : Event → Bool) :
    ((evs.takeWhile p).all isExtractPass) = true := by
  rw [List.all_eq_true]
  intro e he
  obtain ⟨z, hz⟩ := hevs e ((List.takeWhile_sublist p).subset he)
  subst hz
  rfl

theorem takeWhile_trace (evs rest : List Event)
    (hevs : ∀ e ∈ evs, ∃ z, e = Event.extractPass z) :
    ((evs ++ Event.existCheck :: rest).takeWhile
        (fun e => !(e == Event.existCheck))).all isExtractPass = true := by
  have hall : ∀ e ∈ evs, (fun e => !(e == Event.existCheck)) e = true := by
    intro e he
    obtain ⟨z, hz⟩ := hevs e he
    subst hz
    rfl
  rw [takeWhile_append_of_all evs _ hall]
  have hstop : List.takeWhile (fun e => !(e == Event.existCheck))
      (Event.existCheck :: rest) = [] := rfl
  rw [hstop, List.append_nil]
  rw [List.all_eq_true]
  intro e he
  obtain ⟨z, hz⟩ := hevs e he
  subst hz
  rfl

theorem skipTrace_conclusions (res : Except String Unit) (evs rest : List Event)
    (hevs : ∀ e ∈ evs, ∃ z, e = Event.extractPass z)
    (hpg : Event.pgLoad ∉ rest) (hfl : Event.fileLoad ∉ rest)
    (hskip : res = Except.ok () → Event.skipLog ∈ rest) :
    Event.pgLoad ∉ evs ++ Event.existCheck :: rest ∧
    Event.fileLoad ∉ evs ++ Event.existCheck :: rest ∧
    (res = Except.ok () → Event.skipLog ∈ evs ++ Event.existCheck :: rest) ∧
    ((evs ++ Event.existCheck :: rest).takeWhile
        (fun e => !(e == Event.existCheck))).all isExtractPass = true := by
  refine ⟨?_, ?_, ?_, takeWhile_trace evs rest hevs⟩
  · intro hm
    rcases List.mem_append.1 hm with hm | hm
    · obtain ⟨z, hz⟩ := hevs _ hm
      exact Event.noConfusion hz
    · rcases List.mem_cons.1 hm with hm | hm
      · exact Event.noConfusion hm
      · exact hpg hm
  · intro hm
    rcases List.mem_append.1 hm with hm | hm
    · obtain ⟨z, hz⟩ := hevs _ hm
      exact Event.noConfusion hz
    · rcases List.mem_cons.1 hm with hm | hm
      · exact Event.noConfusion hm
      · exact hfl hm
  · intro hok
    exact List.mem_append.2 (Or.inr (List.mem_cons_of_mem _ (hskip hok)))

/-- The claim under test for C4: the destination existence check
happens before any extraction pass of the mapping. -/
def claimC4CheckBeforeExtraction (tr : List Event) : Prop :=
  ∀ pre post z, tr = pre ++ Event.extractPass z :: post → Event.existCheck ∈ pre

/-- Oracles for a run whose destination already holds the output. -/
def exampleOracles : LoadOracles :=
  { matchRes := fun _ => Except.ok ["tmp/shp/z/a.shp"], probe := some true,
    fileExists := true, vrtRes := Except.ok (), pgRes := Except.ok (),
    fileRes := Except.ok (), metaRes := Except.ok () }

/-- C4 counterexample: with skip-if-exists enabled against a Postgres
destination that already has the layer, the extraction pass for the
dataset's archive still runs before the existence check: the check is
not performed before extraction work. -/
theorem C4_counterexample_extraction_precedes_check :
    ¬ claimC4CheckBeforeExtraction
        (loadMapping exampleMapping ["z.zip"] OutTarget.postgres true exampleOracles).2 := by
  intro h
  have h0 := h [] [Event.existCheck, Event.skipLog, Event.metadataWrite] "z.zip" rfl
  simp at h0

/-- C4 amended: under skip-if-exists with the destination already
present, the existence check happens after extraction but before any
conversion-tool invocation: no load_to_postgres or load_to_file
invocation occurs for the mapping, the skip log line is emitted
whenever the run completes, and every event preceding the existence
check is an extraction pass. -/
theorem C4_amended_skip_checks_after_extraction_before_load
    (mapping : ShapefileMetadata) (zips : List String) (output : OutTarget)
    (o : LoadOracles)
    (halready : (output = OutTarget.postgres ∧ o.probe = some true) ∨
      (∃ p, output = OutTarget.file (some p) ∧ o.fileExists = true)) :
    Event.pgLoad ∉ (loadMapping mapping zips output true o).2 ∧
    Event.fileLoad ∉ (loadMapping mapping zips output true o).2 ∧
    ((loadMapping mapping zips output true o).1 = Except.ok () →
      Event.skipLog ∈ (loadMapping mapping zips output true o).2) ∧
    ((loadMapping mapping zips output true o).2.takeWhile
        (fun e => !(e == Event.existCheck))).all isExtractPass = true := by
  have hevs0 := runExtracts_events o zips
  rcases hre : runExtracts o zips with ⟨res, evs⟩
  rw [hre] at hevs0
  cases res with
  | error e =>
    have hload : loadMapping mapping zips output true o = (Except.error e, evs) := by
      simp [loadMapping, hre]
    rw [hload]
    refine ⟨?_, ?_, ?_, takeWhile_all_extract evs hevs0 _⟩
    · intro hm
      obtain ⟨z, hz⟩ := hevs0 _ hm
      exact Event.noConfusion hz
    · intro hm
      obtain ⟨z, hz⟩ := hevs0 _ hm
      exact Event.noConfusion hz
    · intro hok
      exact absurd hok (by simp)
  | ok shapefiles =>
    rcases halready with ⟨houtput, hprobe⟩ | ⟨p, houtput, hfe⟩
    · subst houtput
      cases hmr : o.metaRes with
      | error e =>
        have hload : loadMapping mapping zips OutTarget.postgres true o =
            (Except.error e,
             evs ++ Event.existCheck :: [Event.skipLog, Event.metadataWrite]) := by
          simp [loadMapping, hre, hprobe, has_layer, hmr]
        rw [hload]
        exact skipTrace_conclusions _ evs _ hevs0 (by simp) (by simp)
          (fun hok => absurd hok (by simp))
      | ok u =>
        have hload : loadMapping mapping zips OutTarget.postgres true o =
            (Except.ok (),
             evs ++ Event.existCheck :: [Event.skipLog, Event.metadataWrite]) := by
          simp [loadMapping, hre, hprobe, has_layer, hmr]
        rw [hload]
        exact skipTrace_conclusions _ evs _ hevs0 (by simp) (by simp)
          (fun _ => by simp)
    · subst houtput
      cases shapefiles with
      | nil =>
        cases hmr : o.metaRes with
        | error e =>
          have hload : loadMapping mapping zips (OutTarget.file (some p)) true o =
              (Except.error e,
               evs ++ Event.existCheck :: [Event.skipLog, Event.metadataWrite]) := by
            simp [loadMapping, hre, hfe, hmr]
          rw [hload]
          exact skipTrace_conclusions _ evs _ hevs0 (by simp) (by simp)
            (fun hok => absurd hok (by simp))
        | ok u =>
          have hload : loadMapping mapping zips (OutTarget.file (some p)) true o =
              (Except.ok (),
               evs ++ Event.existCheck :: [Event.skipLog, Event.metadataWrite]) := by
            simp [loadMapping, hre, hfe, hmr]
          rw [hload]
          exact skipTrace_conclusions _ evs _ hevs0 (by simp) (by simp)
            (fun _ => by simp)
      | cons s ss =>
        cases hv : o.vrtRes with
        | error e =>
          have hload : loadMapping mapping zips (OutTarget.file (some p)) true o =
              (Except.error e, evs ++ Event.existCheck :: [Event.vrtCreate]) := by
            simp [loadMapping, hre, hfe, hv]
          rw [hload]
          exact skipTrace_conclusions _ evs _ hevs0 (by simp) (by simp)
            (fun hok => absurd hok (by simp))
        | ok u =>
          cases hmr : o.metaRes with
          | error e =>
            have hload : loadMapping mapping zips (OutTarget.file (some p)) true o =
                (Except.error e,
                 evs ++ Event.existCheck ::
                   [Event.vrtCreate, Event.skipLog, Event.metadataWrite]) := by
              simp [loadMapping, hre, hfe, hv, hmr]
            rw [hload]
            exact skipTrace_conclusions _ evs _ hevs0 (by simp) (by simp)
              (fun hok => absurd hok (by simp))
          | ok u2 =>
            have hload : loadMapping mapping zips (OutTarget.file (some p)) true o =
                (Except.ok (),
                 evs ++ Event.existCheck ::
                   [Event.vrtCreate, Event.skipLog, Event.metadataWrite]) := by
              simp [loadMapping, hre, hfe, hv, hmr]
            rw [hload]
            exact skipTrace_conclusions _ evs _ hevs0 (by simp) (by simp)
              (fun _ => by simp)

/-- Witness for the C4 amended theorem at a concrete Postgres run
whose probe reports the layer present: no conversion invocation, and
the skip log line appears. -/
theorem C4_amended_skip_checks_after_extraction_before_load_witness :
    Event.pgLoad ∉
      (loadMapping exampleMapping ["z.zip"] OutTarget.postgres true exampleOracles).2 ∧
    ((loadMapping exampleMapping ["z.zip"] OutTarget.postgres true exampleOracles).1 =
        Except.ok () →
      Event.skipLog ∈
        (loadMapping exampleMapping ["z.zip"] OutTarget.postgres true exampleOracles).2) :=
  ⟨(C4_amended_skip_checks_after_extraction_before_load exampleMapping ["z.zip"]
      OutTarget.postgres exampleOracles (Or.inl ⟨rfl, rfl⟩)).1,
   (C4_amended_skip_checks_after_extraction_before_load exampleMapping ["z.zip"]
      OutTarget.postgres exampleOracles (Or.inl ⟨rfl, rfl⟩)).2.2.1⟩

/-- C10: has_layer maps an unsuccessful probe exit to Ok false rather
than an error (whatever the cause of the failure), errors only when
the probe process cannot be started, and consequently a mapping whose
probe fails under skip-if-exists is treated as not yet loaded: the
conversion-tool invocation happens. -/
theorem C10_has_layer_probe_failure_reconverts
    (o : LoadOracles) (mapping : ShapefileMetadata) (zips : List String)
    (shapefiles : List String) (evs : List Event)
    (hprobe : o.probe = some false)
    (hvrt : o.vrtRes = Except.ok ())
    (hre : runExtracts o zips = (Except.ok shapefiles, evs)) :
    has_layer none = Except.error "failed to run ogrinfo" ∧
    (∀ b, has_layer (some b) = Except.ok b) ∧
    Event.pgLoad ∈ (loadMapping mapping zips OutTarget.postgres true o).2 := by
  refine ⟨rfl, fun b => rfl, ?_⟩
  cases hpg : o.pgRes with
  | error e =>
    have hload : loadMapping mapping zips OutTarget.postgres true o =
        (Except.error e,
         (evs ++ [Event.existCheck]) ++ [Event.vrtCreate] ++ [Event.pgLoad]) := by
      simp [loadMapping, hre, hprobe, has_layer, hvrt, hpg]
    rw [hload]
    simp
  | ok u =>
    cases hmr : o.metaRes with
    | error e =>
      have hload : loadMapping mapping zips OutTarget.postgres true o =
          (Except.error e,
           (evs ++ [Event.existCheck]) ++ [Event.vrtCreate] ++
             [Event.pgLoad, Event.metadataWrite]) := by
        simp [loadMapping, hre, hprobe, has_layer, hvrt, hpg, hmr]
      rw [hload]
      simp
    | ok u2 =>
      have hload : loadMapping mapping zips OutTarget.postgres true o =
          (Except.ok (),
           (evs ++ [Event.existCheck]) ++ [Event.vrtCreate] ++
             [Event.pgLoad, Event.metadataWrite]) := by
        simp [loadMapping, hre, hprobe, has_layer, hvrt, hpg, hmr]
      rw [hload]
      simp

/-- Oracles for a run whose existence probe ran but failed. -/
def probeFailOracles : LoadOracles :=
  { matchRes := fun _ => Except.ok ["a.shp"], probe := some false, fileExists := false,
    vrtRes := Except.ok (), pgRes := Except.ok (), fileRes := Except.ok (),
    metaRes := Except.ok () }

/-- Witness for C10 at a concrete run: the failing probe reads as
Ok false and the conversion invocation occurs. -/
theorem C10_has_layer_probe_failure_reconverts_witness :
    has_layer (some false) = Except.ok false ∧
    Event.pgLoad ∈
      (loadMapping exampleMapping ["z.zip"] OutTarget.postgres true probeFailOracles).2 :=
  ⟨(C10_has_layer_probe_failure_reconverts probeFailOracles exampleMapping ["z.zip"]
      ["a.shp"] [Event.extractPass "z.zip"] rfl rfl rfl).2.1 false,
   (C10_has_layer_probe_failure_reconverts probeFailOracles exampleMapping ["z.zip"]
      ["a.shp"] [Event.extractPass "z.zip"] rfl rfl rfl).2.2⟩

/-! ## Submission queue lifecycle (load_queue.rs, LoadQueue)

The queue state is reduced to the three Option-wrapped handles that
push and close inspect; the channels and worker set themselves are
irrelevant to the lifecycle errors. -/

structure LoadQueue where
  pb_status_sender : Option Unit
  sender : Option Unit
  set : Option Unit
deriving DecidableEq, Repr

/-- The state constructed by LoadQueue::new (lines 288-292). -/
def LoadQueue.new : LoadQueue := ⟨some (), some (), some ()⟩

/-- load_queue.rs lines 295-311: push errors when the submission or
progress handle has been taken; otherwise it sends the item and
succeeds, leaving the queue state unchanged. -/
def LoadQueue.push (q : LoadQueue) : Except String Unit :=
  match q.sender with
  | none => Except.error "LoadQueue is already closed"
  | some _ =>
    match q.pb_status_sender with
    | none => Except.error "LoadQueue is already closed"
    | some _ => Except.ok ()

/-- load_queue.rs lines 313-325: close takes the three Option fields
in order (each take leaves none behind even when a later one was
already empty), erroring if any was already taken, then joins the
workers. -/
def LoadQueue.close (q : LoadQueue) : Except String Unit × LoadQueue :=
  let q1 : LoadQueue := { q with sender := none }
  match q.sender with
  | none => (Except.error "LoadQueue is already closed", q1)
  | some _ =>
    let q2 : LoadQueue := { q1 with set := none }
    match q1.set with
    | none => (Except.error "LoadQueue is already closed", q2)
    | some _ =>
      let q3 : LoadQueue := { q2 with pb_status_sender := none }
      match q2.pb_status_sender with
      | none => (Except.error "LoadQueue is already closed", q3)
      | some _ => (Except.ok (), q3)

/-- C9 counterexample: push does not change the queue state, so the
second of two consecutive push calls on a fresh queue evaluates the
same expression as the first; it succeeds rather than returning the
explicit error the claim requires for a second submit. -/
theorem C9_counterexample_second_push_succeeds :
    LoadQueue.new.push = Except.ok () ∧
    ¬ ∃ e, LoadQueue.new.push = Except.error e := by
  constructor
  · rfl
  · rintro ⟨e, he⟩
    simp [LoadQueue.push, LoadQueue.new] at he

/-- C9 amended: a repeated push before draining succeeds; the explicit
already-closed error is returned by every push after a successful
close and by every close after a successful close. -/
theorem C9_amended_push_close_after_close_error (q qc : LoadQueue)
    (h : q.close = (Except.ok (), qc)) :
    qc.push = Except.error "LoadQueue is already closed" ∧
    (qc.close).1 = Except.error "LoadQueue is already closed" := by
  have hqc : qc = ⟨none, none, none⟩ := by
    unfold LoadQueue.close at h
    rcases q with ⟨pb, snd, st⟩
    cases snd with
    | none => simp at h
    | some u =>
      cases st with
      | none => simp at h
      | some v =>
        cases pb with
        | none => simp at h
        | some w =>
          have h2 := congrArg Prod.snd h
          simpa using h2.symm
  subst hqc
  exact ⟨rfl, rfl⟩

/-- Witness for the C9 amended theorem: after closing a fresh queue,
push and close both return the explicit already-closed error. -/
theorem C9_amended_push_close_after_close_error_witness :
    (LoadQueue.new.close).2.push = Except.error "LoadQueue is already closed" ∧
    ((LoadQueue.new.close).2.close).1 = Except.error "LoadQueue is already closed" :=
  C9_amended_push_close_after_close_error LoadQueue.new (LoadQueue.new.close).2 rfl

/-! ## Multi-output override (mapping resolution entry point)

The resolver entry point invoked per dataset by the load step
(mapping_defs_for_dataset, load_queue.rs line 31) is not present under
src/; only its call site is.  It is modelled from the spec below. -/

/-- A catalog-external override rule: a dataset identifier and its
fixed list of (output identifier, naming template) outputs. -/
structure MultiOutputRule where
  dataset_identifier : String
  outputs : List (String × String)

/-- Modelled from the spec: mapping_defs_for_dataset is missing from
src/ (only its caller in load_queue.rs appears).  Spec section 4.1:
when the dataset's identifier matches a configured multi-output rule
and catalog-driven resolution produced exactly one no-variant
singleton mapping, that single mapping is replaced by the rule's fixed
output list, each output carrying its own identifier and a matcher
compiled from its template; the override does not fire when catalog
resolution produced genuine declared variants. -/
def mapping_defs_for_dataset (rules : List MultiOutputRule) (datasetIdentifier : String)
    (catalog : List ShapefileMetadata) (hadVariants : Bool) : List ShapefileMetadata :=
  match rules.find? (fun rule => rule.dataset_identifier == datasetIdentifier) with
  | some r =>
    match catalog, hadVariants with
    | [m], false =>
      r.outputs.map (fun out =>
        { m with identifier := out.1, shapefile_matcher := [out.2],
                 shapefile_name_regex :=
                   [MatcherSpec.compiled (create_shapefile_name_regex out.2)] })
    | ms, _ => ms
  | none => catalog

/-- C6: when a configured rule with N outputs covers the dataset and
catalog resolution yielded exactly one no-variant singleton mapping,
resolution returns exactly the N configured mappings, replacing the
singleton; when catalog resolution produced genuine declared variants
or more than one mapping, the catalog result is unchanged. -/
theorem C6_multi_output_override_replaces_singleton
    (rules : List MultiOutputRule) (datasetIdentifier : String) (r : MultiOutputRule)
    (m : ShapefileMetadata) (catalog : List ShapefileMetadata)
    (hfind : rules.find? (fun rule => rule.dataset_identifier == datasetIdentifier) =
      some r) :
    (mapping_defs_for_dataset rules datasetIdentifier [m] false).length =
      r.outputs.length ∧
    mapping_defs_for_dataset rules datasetIdentifier [m] false =
      r.outputs.map (fun out =>
        { m with identifier := out.1, shapefile_matcher := [out.2],
                 shapefile_name_regex :=
                   [MatcherSpec.compiled (create_shapefile_name_regex out.2)] }) ∧
    mapping_defs_for_dataset rules datasetIdentifier catalog true = catalog ∧
    (∀ m2 ms, mapping_defs_for_dataset rules datasetIdentifier (m :: m2 :: ms) false =
      m :: m2 :: ms) := by
  refine ⟨?_, ?_, ?_, ?_⟩
  · simp [mapping_defs_for_dataset, hfind]
  · simp [mapping_defs_for_dataset, hfind]
  · cases catalog with
    | nil => simp [mapping_defs_for_dataset, hfind]
    | cons a tail =>
      cases tail with
      | nil => simp [mapping_defs_for_dataset, hfind]
      | cons b tail2 => simp [mapping_defs_for_dataset, hfind]
  · intro m2 ms
    simp [mapping_defs_for_dataset, hfind]

/-- A two-output override rule. -/
def exampleRule : MultiOutputRule :=
  { dataset_identifier := "X01",
    outputs := [("x01a", "X01a-YY.shp"), ("x01b", "X01b-YY.shp")] }

/-- Witness for C6: the two-output rule turns a no-variant singleton
into exactly two mappings, and leaves a genuine-variant result
untouched. -/
theorem C6_multi_output_override_replaces_singleton_witness :
    (mapping_defs_for_dataset [exampleRule] "X01" [exampleMapping] false).length = 2 ∧
    mapping_defs_for_dataset [exampleRule] "X01" [exampleMapping] true =
      [exampleMapping] :=
  ⟨(C6_multi_output_override_replaces_singleton [exampleRule] "X01" exampleRule
      exampleMapping [exampleMapping] rfl).1.trans rfl,
   (C6_multi_output_override_replaces_singleton [exampleRule] "X01" exampleRule
      exampleMapping [exampleMapping] rfl).2.2.1⟩

end JpksjToSql
